import Mathlib

/-!
# Bank precompile of `x/cronos/keeper/precompiles/bank.go`

A shallow embedding of the bank precompiled contract: the denom derivation
`EVMDenom`, the four ABI methods with their selectors, the blocked-address
guard `checkBlockedAddr` and the dispatcher `Run`.

Library code the contract calls is embedded next to it:

* `sha3.NewLegacyKeccak256` (selectors and the address checksum),
* `common.Address.Hex`, `common.BytesToAddress`, `encoding/hex`,
* `abi.Arguments.Unpack` / `Pack` for the static types `address`, `uint256`.

The bank keeper and the native action bridge are interfaces in the source;
their models are stated with each definition.
-/

namespace Precompiles

/-! ## Bytes -/

/-- A byte of a Go `[]byte`. -/
abbrev Byte := Fin 256

/-! ## Keccak-256 (`sha3.NewLegacyKeccak256`) -/

namespace Keccak

/-- All 64 bits set; `x ^^^ mask64` is the complement of a lane. -/
def mask64 : Nat := 2 ^ 64 - 1

/-- Rotate a 64-bit lane left by `n` bits. -/
def rotl64 (x n : Nat) : Nat :=
  ((x <<< n) ||| (x >>> (64 - n))) % 2 ^ 64

/-- The 24 round constants of Keccak-f[1600]. -/
def roundConstants : List Nat :=
  [0x0000000000000001, 0x0000000000008082, 0x800000000000808A, 0x8000000080008000,
   0x000000000000808B, 0x0000000080000001, 0x8000000080008081, 0x8000000000008009,
   0x000000000000008A, 0x0000000000000088, 0x0000000080008009, 0x000000008000000A,
   0x000000008000808B, 0x800000000000008B, 0x8000000000008089, 0x8000000000008003,
   0x8000000000008002, 0x8000000000000080, 0x000000000000800A, 0x800000008000000A,
   0x8000000080008081, 0x8000000000008080, 0x0000000080000001, 0x8000000080008008]

/-- Rotation offsets of the rho step, at index `x + 5 * y`. -/
def rotc : List Nat :=
  [ 0,  1, 62, 28, 27,
   36, 44,  6, 55, 20,
    3, 10, 43, 25, 39,
   41, 45, 15, 21,  8,
   18,  2, 61, 56, 14]

/-- Lane `(x, y)` of a state of 25 lanes, coordinates taken modulo 5. -/
def lane (a : List Nat) (x y : Nat) : Nat := a.getD (x % 5 + 5 * (y % 5)) 0

/-- The theta step: every lane is xored with the parities of two columns. -/
def theta (a : List Nat) : List Nat :=
  let c := (List.range 5).map fun x =>
    lane a x 0 ^^^ lane a x 1 ^^^ lane a x 2 ^^^ lane a x 3 ^^^ lane a x 4
  let d := (List.range 5).map fun x =>
    c.getD ((x + 4) % 5) 0 ^^^ rotl64 (c.getD ((x + 1) % 5) 0) 1
  (List.range 25).map fun i => a.getD i 0 ^^^ d.getD (i % 5) 0

/-- The rho and pi steps: lane `(x, y)` is rotated and moved to `(y, 2x + 3y)`;
read backwards, the lane at `(u, v)` comes from `x = (u + 3v) % 5`, `y = u`. -/
def rhoPi (a : List Nat) : List Nat :=
  (List.range 25).map fun i =>
    let u := i % 5
    let v := i / 5
    let x := (u + 3 * v) % 5
    let y := u
    rotl64 (lane a x y) (rotc.getD (x + 5 * y) 0)

/-- The chi step, the only non-linear one. -/
def chi (b : List Nat) : List Nat :=
  (List.range 25).map fun i =>
    let x := i % 5
    let y := i / 5
    lane b x y ^^^ ((lane b (x + 1) y ^^^ mask64) &&& lane b (x + 2) y)

/-- The iota step: the round constant is xored into lane `(0, 0)`. -/
def iota (rc : Nat) (a : List Nat) : List Nat :=
  match a with
  | [] => []
  | h :: t => (h ^^^ rc) :: t

/-- One round of the permutation. -/
def round (a : List Nat) (rc : Nat) : List Nat := iota rc (chi (rhoPi (theta a)))

/-- Keccak-f[1600]: 24 rounds. -/
def keccakF (a : List Nat) : List Nat := roundConstants.foldl round a

/-- A lane from its bytes, least significant first. -/
def laneOfBytes : List Nat → Nat
  | [] => 0
  | b :: bs => b + 256 * laneOfBytes bs

/-- The `n` low bytes of a lane, least significant first. -/
def bytesOfLane : Nat → Nat → List Nat
  | 0, _ => []
  | n + 1, v => (v % 256) :: bytesOfLane n (v / 256)

/-- The first `n` chunks of `k` elements of a list. -/
def chunks (k : Nat) : Nat → List Nat → List (List Nat)
  | 0, _ => []
  | n + 1, l => l.take k :: chunks k n (l.drop k)

/-- The rate of Keccak-256 in bytes: (1600 - 2 * 256) / 8. -/
def rate : Nat := 136

/-- Legacy Keccak padding (domain byte 0x01, final bit 0x80) up to a multiple of the rate. -/
def pad (msg : List Nat) : List Nat :=
  let q := rate - msg.length % rate
  if q = 1 then msg ++ [0x81]
  else msg ++ [0x01] ++ List.replicate (q - 2) 0 ++ [0x80]

/-- Xor one block of `rate` bytes into the state and permute. -/
def absorbBlock (st : List Nat) (block : List Nat) : List Nat :=
  let lanes := (chunks 8 17 block).map laneOfBytes
  keccakF ((List.range 25).map fun i => st.getD i 0 ^^^ lanes.getD i 0)

/-- The 32-byte Keccak-256 digest of a byte string. -/
def keccak256 (msg : List Nat) : List Nat :=
  let p := pad msg
  let st := (chunks rate (p.length / rate) p).foldl absorbBlock (List.replicate 25 0)
  ((st.take 4).map (bytesOfLane 8)).flatten

end Keccak

/-- The bytes of a Go string of ASCII characters. -/
def bytesOfString (s : String) : List Nat := s.toList.map Char.toNat

/-- Go's `crypto.Keccak256(data)[:4]` as bytes. -/
def selectorOf (sig : String) : List Byte :=
  ((Keccak.keccak256 (bytesOfString sig)).take 4).map fun b => Fin.ofNat b

/-! ## Addresses (`common.Address`, `sdk.AccAddress`) -/

/-- A 20-byte address. The EVM side (`common.Address`) and the ledger side
(`sdk.AccAddress(addr.Bytes())`) hold the same 20 bytes. -/
structure Address where
  bytes : List Byte
  len : bytes.length = 20
  deriving DecidableEq

/-- The last 20 bytes of `b`, padded on the left with zeros (`Address.SetBytes`). -/
def setBytes (b : List Byte) : List Byte :=
  let b := b.drop (b.length - 20)
  List.replicate (20 - b.length) 0 ++ b

/-- Go's `common.BytesToAddress`. -/
def BytesToAddress (b : List Byte) : Address :=
  ⟨setBytes b, by
    simp only [setBytes, List.length_append, List.length_replicate, List.length_drop]
    omega⟩

/-- The table of `encoding/hex`. -/
def hextable : List Char := "0123456789abcdef".toList

/-- Go's `hex.Encode`: two lowercase digits per byte, high nibble first. -/
def hexEncode (src : List Byte) : List Char :=
  src.flatMap fun v => [hextable.getD (v.val >>> 4) '0', hextable.getD (v.val &&& 0x0f) '0']

/-- The unexported `Address.hex`: "0x" and the lowercase digits of the 20 bytes. -/
def Address.hex (a : Address) : List Char := ['0', 'x'] ++ hexEncode a.bytes

/-- The loop body of `Address.checksumHex` at position `i` of `buf`: a letter
whose nibble of the hash is above 7 is moved to upper case (`buf[i] -= 32`). -/
def checksumAt (hash : List Nat) (i : Nat) (c : Char) : Char :=
  if i < 2 then c
  else
    let hashByte := hash.getD ((i - 2) / 2) 0
    let hashByte := if i % 2 = 0 then hashByte >>> 4 else hashByte &&& 0xf
    if c > '9' ∧ hashByte > 7 then Char.ofNat (c.toNat - 32) else c

/-- The unexported `Address.checksumHex` (EIP-55): the hash is taken over the
40 lowercase digits, without the "0x". -/
def Address.checksumHex (a : Address) : List Char :=
  let buf := a.hex
  let hash := Keccak.keccak256 ((buf.drop 2).map Char.toNat)
  buf.enum.map fun p => checksumAt hash p.1 p.2

/-- Go's `common.Address.Hex`: the EIP-55 hex string of the address. -/
def Address.Hex (a : Address) : String := String.mk a.checksumHex

/-- Lowercase form of a string, as `strings.ToLower` on ASCII. -/
def toLower (s : String) : String := String.mk (s.toList.map Char.toLower)

/-! ## Denom derivation -/

def EVMDenomPrefix : String := "evm/"

def BankContractRequiredGas : Nat := 10000

/-- The denom of the native token managed for an EVM contract. -/
def EVMDenom (token : Address) : String := EVMDenomPrefix ++ token.Hex

/-! ## ABI methods and argument codec (`accounts/abi`) -/

/-- The two ABI types the contract uses; both are static, one 32-byte word each. -/
inductive ArgType
  | address
  | uint256
  deriving DecidableEq, Repr

/-- The canonical name of a type in a method signature. -/
def ArgType.name : ArgType → String
  | .address => "address"
  | .uint256 => "uint256"

/-- A decoded argument: `common.Address` or `*big.Int`. -/
inductive Value
  | address (a : Address)
  | uint (n : Nat)
  deriving DecidableEq

/-- An `abi.Method`: name, inputs, outputs. -/
structure Method where
  Name : String
  Inputs : List ArgType
  Outputs : List ArgType

/-- The signature `name(type,type,...)` built by `abi.NewMethod`. -/
def Method.Sig (m : Method) : String :=
  m.Name ++ "(" ++ ",".intercalate (m.Inputs.map ArgType.name) ++ ")"

/-- The 4-byte selector: the first four bytes of the Keccak-256 of the signature. -/
def Method.ID (m : Method) : List Byte := selectorOf m.Sig

def MintMethod : Method := ⟨"mint", [.address, .uint256], []⟩

def BurnMethod : Method := ⟨"burn", [.address, .uint256], []⟩

def BalanceOfMethod : Method := ⟨"balanceOf", [.address, .address], [.uint256]⟩

def TransferMethod : Method := ⟨"transfer", [.address, .address, .uint256], []⟩

/-- Big-endian value of a byte string (`big.Int.SetBytes`, `abi.ReadInteger` at uint256). -/
def readInteger (b : List Byte) : Nat := b.foldl (fun acc x => acc * 256 + x.val) 0

/-- Go's `abi.toGoType` at the two static types: the 32-byte word at `index`;
an address is the last 20 bytes of its word, the 12 bytes before them are not inspected. -/
def toGoType (index : Nat) (t : ArgType) (output : List Byte) : Except String Value :=
  if index + 32 > output.length then
    .error "abi: cannot marshal in to go type: length insufficient"
  else
    let returnOutput := (output.drop index).take 32
    match t with
    | .uint256 => .ok (.uint (readInteger returnOutput))
    | .address => .ok (.address (BytesToAddress returnOutput))

/-- The loop of `Arguments.UnpackValues` from argument number `index` on: the
argument is read at byte `index * 32` (static types add no virtual arguments),
and the first error ends the loop. -/
def unpackValuesFrom (index : Nat) : List ArgType → List Byte → Except String (List Value)
  | [], _ => .ok []
  | arg :: args, data =>
    match toGoType (index * 32) arg data with
    | .error err => .error err
    | .ok marshalledValue =>
      match unpackValuesFrom (index + 1) args data with
      | .error err => .error err
      | .ok retval => .ok (marshalledValue :: retval)

/-- Go's `Arguments.UnpackValues`. -/
def UnpackValues (args : List ArgType) (data : List Byte) : Except String (List Value) :=
  unpackValuesFrom 0 args data

/-- Go's `Arguments.Unpack`. -/
def Unpack (args : List ArgType) (data : List Byte) : Except String (List Value) :=
  if data.length = 0 then
    if args.length ≠ 0 then
      .error "abi: attempting to unmarshall an empty string while arguments are expected"
    else .ok []
  else UnpackValues args data

/-- Go's `math.PaddedBigBytes(n, 32)` for `n < 2 ^ 256`: 32 bytes, big-endian. -/
def paddedBigBytes32 (n : Nat) : List Byte :=
  (List.range 32).map fun i => Fin.ofNat (n / 256 ^ (31 - i))

/-- Go's `math.U256Bytes`: the value is reduced modulo 2^256 and written as 32 bytes. -/
def U256Bytes (n : Nat) : List Byte := paddedBigBytes32 (n % 2 ^ 256)

/-- An address as an ABI word: 12 zero bytes and the 20 bytes (`common.LeftPadBytes`). -/
def packAddress (a : Address) : List Byte := List.replicate 12 0 ++ a.bytes

/-- Go's `abi.packElement` at the two static types. -/
def packElement : Value → List Byte
  | .address a => packAddress a
  | .uint n => U256Bytes n

/-- Go's `Arguments.Pack` on static values: the words one after the other. -/
def Pack (vals : List Value) : List Byte := vals.flatMap packElement

/-! ## Errors -/

/-- The Go errors the contract and its collaborators return. -/
inductive Err
  /-- An error of `errors.New(msg)`. -/
  | new (msg : String)
  /-- An error of `errorsmod.Wrap(cause, msg)`. -/
  | wrap (cause : Err) (msg : String)
  /-- An error of `errorsmod.Wrapf(errortypes.ErrUnauthorized, "%s is not allowed to receive funds", addr)`. -/
  | unauthorized (dest : Address)
  /-- The keeper refuses transfers of a denom (`IsSendEnabledCoins`). -/
  | sendDisabled (denom : String)
  /-- The keeper finds a balance smaller than the amount to take from it. -/
  | insufficientFunds (account : Address) (denom : String)
  deriving DecidableEq

/-! ## The ledger (`types.BankKeeper`) -/

/-- A coin: denom and amount (`sdk.Coin`). -/
structure Coin where
  Denom : String
  Amount : Nat
  deriving DecidableEq

/-- Go's `sdk.NewCoin`. -/
def NewCoin (denom : String) (amount : Nat) : Coin := ⟨denom, amount⟩

/-- Modelled from the spec: the state of the ledger subsystem behind
`types.BankKeeper`, which is an interface in the source. Balances per account
and denom, the blocked-address policy, the send-enabled policy per denom, and
the account of the module `types.ModuleName`. -/
structure Bank where
  balances : Address → String → Nat
  blocked : Address → Bool
  sendEnabled : String → Bool
  moduleAddr : Address

/-- A call made on a collaborator: a bank keeper method or the native action bridge. -/
inductive Call
  | BlockedAddr (addr : Address)
  | ExecuteNativeAction
  | IsSendEnabledCoins (amt : Coin)
  | MintCoins (amt : Coin)
  | BurnCoins (amt : Coin)
  | SendCoinsFromModuleToAccount (dest : Address) (amt : Coin)
  | SendCoinsFromAccountToModule (sender : Address) (amt : Coin)
  | SendCoins (sender dest : Address) (amt : Coin)
  | GetBalance (addr : Address) (denom : String)
  deriving DecidableEq

/-- What a keeper call sees and changes (`sdk.Context`): the ledger, and the
record of the calls made so far, oldest first. The record is an observation, a
rollback of the ledger does not shorten it. -/
structure Ctx where
  bank : Bank
  calls : List Call

/-- Append a call to the record. -/
def Ctx.log (ctx : Ctx) (c : Call) : Ctx := { ctx with calls := ctx.calls ++ [c] }

/-- Add `n` to the balance of `(a, d)`. -/
def Bank.add (b : Bank) (a : Address) (d : String) (n : Nat) : Bank :=
  { b with balances := fun a1 d1 => if a1 = a ∧ d1 = d then b.balances a1 d1 + n else b.balances a1 d1 }

/-- Take `n` from the balance of `(a, d)`. -/
def Bank.sub (b : Bank) (a : Address) (d : String) (n : Nat) : Bank :=
  { b with balances := fun a1 d1 => if a1 = a ∧ d1 = d then b.balances a1 d1 - n else b.balances a1 d1 }

/-- Move a coin between two accounts; fails when the sender holds less. -/
def Bank.send (b : Bank) (sender dest : Address) (amt : Coin) : Except Err Bank :=
  if b.balances sender amt.Denom < amt.Amount then .error (.insufficientFunds sender amt.Denom)
  else .ok ((b.sub sender amt.Denom amt.Amount).add dest amt.Denom amt.Amount)

/-- Apply a fallible ledger update inside a context. -/
def Ctx.update (ctx : Ctx) (r : Except Err Bank) : Option Err × Ctx :=
  match r with
  | .error e => (some e, ctx)
  | .ok b => (none, { ctx with bank := b })

/-- Modelled from the spec: `BankKeeper.BlockedAddr`, the blocked-address policy. -/
def BlockedAddr (ctx : Ctx) (addr : Address) : Bool × Ctx :=
  (ctx.bank.blocked addr, ctx.log (.BlockedAddr addr))

/-- Modelled from the spec: `BankKeeper.IsSendEnabledCoins`, whether transfers of the denom are enabled. -/
def IsSendEnabledCoins (ctx : Ctx) (amt : Coin) : Option Err × Ctx :=
  let ctx := ctx.log (.IsSendEnabledCoins amt)
  if ctx.bank.sendEnabled amt.Denom then (none, ctx) else (some (.sendDisabled amt.Denom), ctx)

/-- Modelled from the spec: `BankKeeper.MintCoins`, increases the module holding. -/
def MintCoins (ctx : Ctx) (amt : Coin) : Option Err × Ctx :=
  let ctx := ctx.log (.MintCoins amt)
  ctx.update (.ok (ctx.bank.add ctx.bank.moduleAddr amt.Denom amt.Amount))

/-- Modelled from the spec: `BankKeeper.BurnCoins`, decreases the module holding. -/
def BurnCoins (ctx : Ctx) (amt : Coin) : Option Err × Ctx :=
  let ctx := ctx.log (.BurnCoins amt)
  if ctx.bank.balances ctx.bank.moduleAddr amt.Denom < amt.Amount then
    (some (.insufficientFunds ctx.bank.moduleAddr amt.Denom), ctx)
  else ctx.update (.ok (ctx.bank.sub ctx.bank.moduleAddr amt.Denom amt.Amount))

/-- Modelled from the spec: `BankKeeper.SendCoinsFromModuleToAccount`. -/
def SendCoinsFromModuleToAccount (ctx : Ctx) (dest : Address) (amt : Coin) : Option Err × Ctx :=
  let ctx := ctx.log (.SendCoinsFromModuleToAccount dest amt)
  ctx.update (ctx.bank.send ctx.bank.moduleAddr dest amt)

/-- Modelled from the spec: `BankKeeper.SendCoinsFromAccountToModule`. -/
def SendCoinsFromAccountToModule (ctx : Ctx) (sender : Address) (amt : Coin) : Option Err × Ctx :=
  let ctx := ctx.log (.SendCoinsFromAccountToModule sender amt)
  ctx.update (ctx.bank.send sender ctx.bank.moduleAddr amt)

/-- Modelled from the spec: `BankKeeper.SendCoins`, account to account. -/
def SendCoins (ctx : Ctx) (sender dest : Address) (amt : Coin) : Option Err × Ctx :=
  let ctx := ctx.log (.SendCoins sender dest amt)
  ctx.update (ctx.bank.send sender dest amt)

/-- Modelled from the spec: `BankKeeper.GetBalance`, zero when the account holds none. -/
def GetBalance (ctx : Ctx) (addr : Address) (denom : String) : Coin × Ctx :=
  (⟨denom, ctx.bank.balances addr denom⟩, ctx.log (.GetBalance addr denom))

/-! ## The native action bridge (`ExtStateDB`) -/

/-- The interface `ExtStateDB`, reached in `Run` through `evm.StateDB.(ExtStateDB)`.
`ExecuteNativeAction` takes the action, a Go closure `func(ctx sdk.Context) error`,
and returns an error. The closure may assign to a variable of the enclosing
function: `β` is the type of that variable, the action receives its value and
returns the new one. Any implementation of the interface is a value of this type. -/
structure ExtStateDB where
  ExecuteNativeAction : (β : Type) → (Ctx → β → Option Err × Ctx × β) → Ctx → β → Option Err × Ctx × β

/-- Modelled from the spec: the Native Action Bridge `runAtomic`, whose code is
not in the source. The action runs on the current ledger; when it fails, every
ledger mutation it made is rolled back as a unit and its failure is returned. -/
def atomicStateDB : ExtStateDB where
  ExecuteNativeAction _ action ctx v :=
    match action ctx v with
    | (some err, ctx1, v1) => (some err, { ctx1 with bank := ctx.bank }, v1)
    | (none, ctx1, v1) => (none, ctx1, v1)

/-! ## The contract -/

/-- The part of `vm.Contract` that `Run` reads. -/
structure Contract where
  CallerAddress : Address
  Input : List Byte

/-- Go's `BankContractAddress`. -/
def BankContractAddress : Address := BytesToAddress [100]

/-- Go's `RequiredGas`: a constant. -/
def RequiredGas (_input : List Byte) : Nat := BankContractRequiredGas

def IsStateful : Bool := true

/-- Go's `sdk.AccAddressFromBech32(addr.String())`: the bech32 text of the
address is decoded again. Decoding fails on an empty or malformed text only;
the text of a 20-byte address decodes to the same 20 bytes. -/
def AccAddressFromBech32String (addr : Address) : Except Err Address := .ok addr

/-- The sign of a non-negative `big.Int` (`amount.Sign()`). -/
def sign (amount : Nat) : Int := if amount = 0 then 0 else 1

def checkBlockedAddr (ctx : Ctx) (addr : Address) : Option Err × Ctx :=
  match AccAddressFromBech32String addr with
  | .error err => (some err, ctx)
  | .ok dest =>
    match BlockedAddr ctx dest with
    | (true, ctx) => (some (.unauthorized dest), ctx)
    | (false, ctx) => (none, ctx)

/-- What `Run` returns, `([]byte, error)`, and the context it leaves. A nil
slice is the empty list. -/
structure RunResult where
  ret : List Byte
  err : Option Err
  ctx : Ctx

/-- The closure of the mint and burn branch. -/
def mintBurnAction (mint : Bool) (addr : Address) (amt : Coin) (ctx : Ctx) (u : Unit) :
    Option Err × Ctx × Unit :=
  match IsSendEnabledCoins ctx amt with
  | (some err, ctx) => (some err, ctx, u)
  | (none, ctx) =>
    if mint then
      match MintCoins ctx amt with
      | (some err, ctx) => (some (.wrap err "fail to mint coins in precompiled contract"), ctx, u)
      | (none, ctx) =>
        match SendCoinsFromModuleToAccount ctx addr amt with
        | (some err, ctx) => (some (.wrap err "fail to send mint coins to account"), ctx, u)
        | (none, ctx) => (none, ctx, u)
    else
      match SendCoinsFromAccountToModule ctx addr amt with
      | (some err, ctx) => (some (.wrap err "fail to send burn coins to module"), ctx, u)
      | (none, ctx) =>
        match BurnCoins ctx amt with
        | (some err, ctx) => (some (.wrap err "fail to burn coins in precompiled contract"), ctx, u)
        | (none, ctx) => (none, ctx, u)

/-- The closure of the balanceOf branch. It assigns the balance to the captured
variable and returns the captured `err`, which is nil where the closure is built
(the unpack error was checked before). -/
def balanceOfAction (err : Option Err) (addr token : Address) (ctx : Ctx) (_balance : Nat) :
    Option Err × Ctx × Nat :=
  match GetBalance ctx addr (EVMDenom token) with
  | (coin, ctx) => (err, ctx, coin.Amount)

/-- The closure of the transfer branch. -/
def transferAction (sender dest : Address) (amt : Coin) (ctx : Ctx) (u : Unit) :
    Option Err × Ctx × Unit :=
  match IsSendEnabledCoins ctx amt with
  | (some err, ctx) => (some err, ctx, u)
  | (none, ctx) =>
    match SendCoins ctx sender dest amt with
    | (some err, ctx) => (some (.wrap err "fail to send coins in precompiled contract"), ctx, u)
    | (none, ctx) => (none, ctx, u)

/-- The branch of `Run` for the mint and burn selectors. `none` is a Go panic. -/
def runMintBurn (db : ExtStateDB) (ctx : Ctx) (contract : Contract) (readonly : Bool)
    (methodID : List Byte) : Option RunResult :=
  if readonly then
    some ⟨[], some (.new "the method is not readonly"), ctx⟩
  else
    let mint := decide (methodID = MintMethod.ID)
    let method := if mint then MintMethod else BurnMethod
    match Unpack method.Inputs (contract.Input.drop 4) with
    | .error _ => some ⟨[], some (.new "fail to unpack input arguments"), ctx⟩
    | .ok [.address recipient, .uint amount] =>
      if sign amount ≤ 0 then
        some ⟨[], some (.new "invalid amount"), ctx⟩
      else
        let addr := recipient
        match checkBlockedAddr ctx addr with
        | (some err, ctx) => some ⟨[], some err, ctx⟩
        | (none, ctx) =>
          let denom := EVMDenom contract.CallerAddress
          let amt := NewCoin denom amount
          match db.ExecuteNativeAction Unit (mintBurnAction mint addr amt) (ctx.log .ExecuteNativeAction) () with
          | (some err, ctx, _) => some ⟨[], some err, ctx⟩
          | (none, ctx, _) => some ⟨[], none, ctx⟩
    | .ok _ => none

/-- The branch of `Run` for the balanceOf selector. The error that
`ExecuteNativeAction` returns is assigned to `err` and not read again. -/
def runBalanceOf (db : ExtStateDB) (ctx : Ctx) (contract : Contract) : Option RunResult :=
  match Unpack BalanceOfMethod.Inputs (contract.Input.drop 4) with
  | .error _ => some ⟨[], some (.new "fail to unpack input arguments"), ctx⟩
  | .ok [.address token, .address addr] =>
    let balance := 0
    match db.ExecuteNativeAction Nat (balanceOfAction none addr token) (ctx.log .ExecuteNativeAction) balance with
    | (_, ctx, balance) => some ⟨Pack [.uint balance], none, ctx⟩
  | .ok _ => none

/-- The branch of `Run` for the transfer selector. -/
def runTransfer (db : ExtStateDB) (ctx : Ctx) (contract : Contract) (readonly : Bool) :
    Option RunResult :=
  if readonly then
    some ⟨[], some (.new "the method is not readonly"), ctx⟩
  else
    match Unpack TransferMethod.Inputs (contract.Input.drop 4) with
    | .error _ => some ⟨[], some (.new "fail to unpack input arguments"), ctx⟩
    | .ok [.address sender, .address recipient, .uint amount] =>
      if sign amount ≤ 0 then
        some ⟨[], some (.new "invalid amount"), ctx⟩
      else
        let sender := sender
        let dest := recipient
        match checkBlockedAddr ctx dest with
        | (some err, ctx) => some ⟨[], some err, ctx⟩
        | (none, ctx) =>
          let denom := EVMDenom contract.CallerAddress
          let amt := NewCoin denom amount
          match db.ExecuteNativeAction Unit (transferAction sender dest amt) (ctx.log .ExecuteNativeAction) () with
          | (err, ctx, _) => some ⟨[], err, ctx⟩
    | .ok _ => none

/-- Go's `BankContract.Run`. `ctx` is the ledger the state database and the bank
keeper work on, `db` the state database. `none` is a Go panic: the slice
expression `contract.Input[:4]` on an input of fewer than 4 bytes (for a slice
whose capacity is its length), or a failed type assertion on a decoded argument. -/
def Run (db : ExtStateDB) (ctx : Ctx) (contract : Contract) (readonly : Bool) : Option RunResult :=
  if contract.Input.length < 4 then none
  else
    let methodID := contract.Input.take 4
    if methodID = MintMethod.ID ∨ methodID = BurnMethod.ID then
      runMintBurn db ctx contract readonly methodID
    else if methodID = BalanceOfMethod.ID then
      runBalanceOf db ctx contract
    else if methodID = TransferMethod.ID then
      runTransfer db ctx contract readonly
    else
      some ⟨[], some (.new "unknown method"), ctx⟩

/-- The value of a lowercase hexadecimal digit, 0 for any other character. -/
def unhex (c : Char) : Nat :=
  if '0' ≤ c ∧ c ≤ '9' then c.toNat - 48
  else if 'a' ≤ c ∧ c ≤ 'f' then c.toNat - 87
  else 0

/-! ## Sample values -/

/-- A state database whose `ExecuteNativeAction` returns the error `e` and does
not run the action. -/
def failingStateDB (e : Err) : ExtStateDB where
  ExecuteNativeAction _ _ ctx v := (some e, ctx, v)

/-- The address whose last byte is `n` and whose other bytes are zero. -/
def sampleAddr (n : Nat) : Address := BytesToAddress [Fin.ofNat n]

/-- The address 0x5aAeb6053F3E94C9b9A09f33669435E7Ef1BeAed. -/
def eip55Sample : Address :=
  BytesToAddress [0x5a, 0xae, 0xb6, 0x05, 0x3f, 0x3e, 0x94, 0xc9, 0xb9, 0xa0,
    0x9f, 0x33, 0x66, 0x94, 0x35, 0xe7, 0xef, 0x1b, 0xea, 0xed]

/-- A ledger in which account 1 holds 100 of the denom of contract 9, account 7
is blocked, transfers of every denom are enabled and the module account is 200. -/
def sampleBank : Bank where
  balances a d := if a = sampleAddr 1 ∧ d = EVMDenom (sampleAddr 9) then 100 else 0
  blocked a := decide (a = sampleAddr 7)
  sendEnabled _ := true
  moduleAddr := sampleAddr 200

/-- The sample ledger with transfers of every denom disabled. -/
def frozenBank : Bank := { sampleBank with sendEnabled := fun _ => false }

/-- A context on the sample ledger with no call recorded. -/
def sampleCtx : Ctx := ⟨sampleBank, []⟩

/-! ## Selectors -/

set_option maxRecDepth 100000 in
theorem MintMethod_ID : MintMethod.ID = [0x40, 0xc1, 0x0f, 0x19] := by decide!

set_option maxRecDepth 100000 in
theorem BurnMethod_ID : BurnMethod.ID = [0x9d, 0xc2, 0x9f, 0xac] := by decide!

set_option maxRecDepth 100000 in
theorem BalanceOfMethod_ID : BalanceOfMethod.ID = [0xf7, 0x88, 0x8a, 0xec] := by decide!

set_option maxRecDepth 100000 in
theorem TransferMethod_ID : TransferMethod.ID = [0xbe, 0xab, 0xac, 0xc8] := by decide!

theorem Run_mint (db : ExtStateDB) (ctx : Ctx) (caller : Address) (rest : List Byte) (ro : Bool) :
    Run db ctx ⟨caller, MintMethod.ID ++ rest⟩ ro
      = if ro then some ⟨[], some (.new "the method is not readonly"), ctx⟩ else
        match Unpack MintMethod.Inputs rest with
        | .error _ => some ⟨[], some (.new "fail to unpack input arguments"), ctx⟩
        | .ok [.address recipient, .uint amount] =>
          if sign amount ≤ 0 then some ⟨[], some (.new "invalid amount"), ctx⟩
          else
            match checkBlockedAddr ctx recipient with
            | (some err, ctx) => some ⟨[], some err, ctx⟩
            | (none, ctx) =>
              match db.ExecuteNativeAction Unit
                  (mintBurnAction true recipient (NewCoin (EVMDenom caller) amount))
                  (ctx.log .ExecuteNativeAction) () with
              | (some err, ctx, _) => some ⟨[], some err, ctx⟩
              | (none, ctx, _) => some ⟨[], none, ctx⟩
        | .ok _ => none := by
  unfold Run runMintBurn
  rw [MintMethod_ID, BurnMethod_ID]
  simp

theorem Run_burn (db : ExtStateDB) (ctx : Ctx) (caller : Address) (rest : List Byte) (ro : Bool) :
    Run db ctx ⟨caller, BurnMethod.ID ++ rest⟩ ro
      = if ro then some ⟨[], some (.new "the method is not readonly"), ctx⟩ else
        match Unpack BurnMethod.Inputs rest with
        | .error _ => some ⟨[], some (.new "fail to unpack input arguments"), ctx⟩
        | .ok [.address recipient, .uint amount] =>
          if sign amount ≤ 0 then some ⟨[], some (.new "invalid amount"), ctx⟩
          else
            match checkBlockedAddr ctx recipient with
            | (some err, ctx) => some ⟨[], some err, ctx⟩
            | (none, ctx) =>
              match db.ExecuteNativeAction Unit
                  (mintBurnAction false recipient (NewCoin (EVMDenom caller) amount))
                  (ctx.log .ExecuteNativeAction) () with
              | (some err, ctx, _) => some ⟨[], some err, ctx⟩
              | (none, ctx, _) => some ⟨[], none, ctx⟩
        | .ok _ => none := by
  unfold Run runMintBurn
  rw [MintMethod_ID, BurnMethod_ID]
  simp

theorem Run_balanceOf (db : ExtStateDB) (ctx : Ctx) (caller : Address) (rest : List Byte) (ro : Bool) :
    Run db ctx ⟨caller, BalanceOfMethod.ID ++ rest⟩ ro
      = match Unpack BalanceOfMethod.Inputs rest with
        | .error _ => some ⟨[], some (.new "fail to unpack input arguments"), ctx⟩
        | .ok [.address token, .address addr] =>
          match db.ExecuteNativeAction Nat (balanceOfAction none addr token)
              (ctx.log .ExecuteNativeAction) 0 with
          | (_, ctx, balance) => some ⟨Pack [.uint balance], none, ctx⟩
        | .ok _ => none := by
  unfold Run runBalanceOf
  rw [MintMethod_ID, BurnMethod_ID, BalanceOfMethod_ID]
  simp

theorem Run_transfer (db : ExtStateDB) (ctx : Ctx) (caller : Address) (rest : List Byte) (ro : Bool) :
    Run db ctx ⟨caller, TransferMethod.ID ++ rest⟩ ro
      = if ro then some ⟨[], some (.new "the method is not readonly"), ctx⟩ else
        match Unpack TransferMethod.Inputs rest with
        | .error _ => some ⟨[], some (.new "fail to unpack input arguments"), ctx⟩
        | .ok [.address sender, .address recipient, .uint amount] =>
          if sign amount ≤ 0 then some ⟨[], some (.new "invalid amount"), ctx⟩
          else
            match checkBlockedAddr ctx recipient with
            | (some err, ctx) => some ⟨[], some err, ctx⟩
            | (none, ctx) =>
              match db.ExecuteNativeAction Unit
                  (transferAction sender recipient (NewCoin (EVMDenom caller) amount))
                  (ctx.log .ExecuteNativeAction) () with
              | (err, ctx, _) => some ⟨[], err, ctx⟩
        | .ok _ => none := by
  unfold Run runTransfer
  rw [MintMethod_ID, BurnMethod_ID, BalanceOfMethod_ID, TransferMethod_ID]
  simp

/-! ## Read-only calls of mutating methods -/

/-- C1: a payload that begins with the mint, burn or transfer selector, run
with `readonly = true`, returns no output and the error "the method is not
readonly", whatever bytes follow the selector and whatever the state database
is. The context comes back as it was: the ledger is unchanged and the record of
collaborator calls has no new entry, so neither `BlockedAddr` nor
`ExecuteNativeAction` was called. -/
theorem Run_readonly_mutating (db : ExtStateDB) (ctx : Ctx) (caller : Address) (rest : List Byte) :
    Run db ctx ⟨caller, MintMethod.ID ++ rest⟩ true
        = some ⟨[], some (.new "the method is not readonly"), ctx⟩ ∧
    Run db ctx ⟨caller, BurnMethod.ID ++ rest⟩ true
        = some ⟨[], some (.new "the method is not readonly"), ctx⟩ ∧
    Run db ctx ⟨caller, TransferMethod.ID ++ rest⟩ true
        = some ⟨[], some (.new "the method is not readonly"), ctx⟩ := by
  refine ⟨?_, ?_, ?_⟩
  · rw [Run_mint]; rfl
  · rw [Run_burn]; rfl
  · rw [Run_transfer]; rfl

/-! ## Amount zero -/

/-- C2: with `readonly = false`, a mint, burn or transfer payload whose
arguments decode and whose amount decodes to 0 returns no output and the error
"invalid amount", for every caller, ledger and state database. The context
comes back as it was: no `BlockedAddr` call and no `ExecuteNativeAction` call
was made, and the ledger is unchanged, also when the recipient is blocked. -/
theorem Run_zero_amount (db : ExtStateDB) (ctx : Ctx) (caller : Address)
    (rest2 rest3 : List Byte) (account sender recipient : Address)
    (h2 : Unpack [.address, .uint256] rest2 = .ok [.address account, .uint 0])
    (h3 : Unpack [.address, .address, .uint256] rest3
        = .ok [.address sender, .address recipient, .uint 0]) :
    Run db ctx ⟨caller, MintMethod.ID ++ rest2⟩ false
        = some ⟨[], some (.new "invalid amount"), ctx⟩ ∧
    Run db ctx ⟨caller, BurnMethod.ID ++ rest2⟩ false
        = some ⟨[], some (.new "invalid amount"), ctx⟩ ∧
    Run db ctx ⟨caller, TransferMethod.ID ++ rest3⟩ false
        = some ⟨[], some (.new "invalid amount"), ctx⟩ := by
  refine ⟨?_, ?_, ?_⟩
  · rw [Run_mint]; simp [MintMethod, h2, sign]
  · rw [Run_burn]; simp [BurnMethod, h2, sign]
  · rw [Run_transfer]; simp [TransferMethod, h3, sign]

/-! ## Blocked recipient -/

/-- C3: mint and transfer with `readonly = false`, arguments that decode and an
amount above 0: when the blocked-address policy denies the recipient, `Run`
returns no output and the unauthorized error naming the recipient, for every
state database. The context that comes back has the same ledger (every balance
of every account and denom is as before) and one new call in its record, the
`BlockedAddr` query: `ExecuteNativeAction` was not called. -/
theorem Run_blocked_recipient (db : ExtStateDB) (ctx : Ctx) (caller : Address)
    (rest2 rest3 : List Byte) (sender recipient : Address) (amount : Nat)
    (hamt : 0 < amount) (hblk : ctx.bank.blocked recipient = true)
    (h2 : Unpack [.address, .uint256] rest2 = .ok [.address recipient, .uint amount])
    (h3 : Unpack [.address, .address, .uint256] rest3
        = .ok [.address sender, .address recipient, .uint amount]) :
    Run db ctx ⟨caller, MintMethod.ID ++ rest2⟩ false
        = some ⟨[], some (.unauthorized recipient),
            ⟨ctx.bank, ctx.calls ++ [.BlockedAddr recipient]⟩⟩ ∧
    Run db ctx ⟨caller, TransferMethod.ID ++ rest3⟩ false
        = some ⟨[], some (.unauthorized recipient),
            ⟨ctx.bank, ctx.calls ++ [.BlockedAddr recipient]⟩⟩ := by
  have hs : ¬ sign amount ≤ 0 := by simp [sign]; omega
  refine ⟨?_, ?_⟩
  · rw [Run_mint]
    simp [MintMethod, h2, hs, checkBlockedAddr, AccAddressFromBech32String, BlockedAddr, hblk,
      Ctx.log]
  · rw [Run_transfer]
    simp [TransferMethod, h3, hs, checkBlockedAddr, AccAddressFromBech32String, BlockedAddr, hblk,
      Ctx.log]

/-! ## Net effect of mint and transfer -/

/-- C5: mint on the atomic bridge. With `readonly = false`, arguments that
decode to a recipient and an amount above 0, the recipient not blocked and
transfers of `EVMDenom caller` enabled, `Run` returns no output and no error;
the recipient holds exactly `amount` more of `EVMDenom caller`, and every other
balance, of any account and denom (the module account among them), is as before.
The denom is that of the caller. -/
theorem Run_mint_net_effect (ctx : Ctx) (caller recipient : Address) (amount : Nat)
    (rest : List Byte)
    (h : Unpack [.address, .uint256] rest = .ok [.address recipient, .uint amount])
    (hamt : 0 < amount) (hblk : ctx.bank.blocked recipient = false)
    (hen : ctx.bank.sendEnabled (EVMDenom caller) = true) :
    ∃ r, Run atomicStateDB ctx ⟨caller, MintMethod.ID ++ rest⟩ false = some r ∧
      r.ret = [] ∧ r.err = none ∧
      r.ctx.bank.balances recipient (EVMDenom caller)
        = ctx.bank.balances recipient (EVMDenom caller) + amount ∧
      ∀ acct denom, ¬ (acct = recipient ∧ denom = EVMDenom caller) →
        r.ctx.bank.balances acct denom = ctx.bank.balances acct denom := by
  have hs : ¬ sign amount ≤ 0 := by simp [sign]; omega
  rw [Run_mint]
  simp [MintMethod, h, hs, checkBlockedAddr, AccAddressFromBech32String, BlockedAddr, hblk,
      Ctx.log, atomicStateDB, mintBurnAction, IsSendEnabledCoins, NewCoin, hen, MintCoins,
      Ctx.update, SendCoinsFromModuleToAccount, Bank.send, Bank.add, Bank.sub]
  constructor
  · split_ifs <;> omega
  · intro acct denom hne
    split_ifs with h1 h2 h3 <;> first | omega | (exact absurd h1.2 (hne h1.1))

/-- C6: transfer on the atomic bridge. With `readonly = false`, arguments that
decode to two distinct accounts and an amount above 0 that the sender holds in
`EVMDenom caller`, the recipient not blocked and transfers of that denom
enabled, `Run` returns no output and no error; the sender holds exactly
`amount` less, the recipient exactly `amount` more, the sum of the two is as
before, and every other balance is as before. -/
theorem Run_transfer_conservation (ctx : Ctx) (caller sender recipient : Address)
    (amount : Nat) (rest : List Byte)
    (h : Unpack [.address, .address, .uint256] rest
        = .ok [.address sender, .address recipient, .uint amount])
    (hne : sender ≠ recipient) (hamt : 0 < amount)
    (hbal : amount ≤ ctx.bank.balances sender (EVMDenom caller))
    (hblk : ctx.bank.blocked recipient = false)
    (hen : ctx.bank.sendEnabled (EVMDenom caller) = true) :
    ∃ r, Run atomicStateDB ctx ⟨caller, TransferMethod.ID ++ rest⟩ false = some r ∧
      r.ret = [] ∧ r.err = none ∧
      r.ctx.bank.balances sender (EVMDenom caller) + amount
        = ctx.bank.balances sender (EVMDenom caller) ∧
      r.ctx.bank.balances recipient (EVMDenom caller)
        = ctx.bank.balances recipient (EVMDenom caller) + amount ∧
      r.ctx.bank.balances sender (EVMDenom caller)
          + r.ctx.bank.balances recipient (EVMDenom caller)
        = ctx.bank.balances sender (EVMDenom caller)
          + ctx.bank.balances recipient (EVMDenom caller) ∧
      ∀ acct denom, ¬ (acct = sender ∧ denom = EVMDenom caller) →
        ¬ (acct = recipient ∧ denom = EVMDenom caller) →
        r.ctx.bank.balances acct denom = ctx.bank.balances acct denom := by
  have hs : ¬ sign amount ≤ 0 := by simp [sign]; omega
  have hlt : ¬ ctx.bank.balances sender (EVMDenom caller) < amount := by omega
  have hne2 : ¬ recipient = sender := fun e => hne e.symm
  rw [Run_transfer]
  simp [TransferMethod, h, hs, checkBlockedAddr, AccAddressFromBech32String, BlockedAddr, hblk,
      Ctx.log, atomicStateDB, transferAction, IsSendEnabledCoins, NewCoin, hen, SendCoins,
      Ctx.update, Bank.send, Bank.add, Bank.sub, hlt, hne, hne2]
  refine ⟨by omega, by omega, ?_⟩
  intro acct denom h1 h2
  split_ifs with k1 k2 k2 <;> first | rfl | (exact absurd k1.2 (h2 k1.1)) | (exact absurd k2.2 (h1 k2.1))

/-! ## Big-endian words -/

theorem readInteger_append (l : List Byte) (x : Byte) :
    readInteger (l ++ [x]) = readInteger l * 256 + x.val := by
  simp [readInteger, List.foldl_append]

theorem readInteger_digits (k n : Nat) :
    readInteger ((List.range k).map fun i => (Fin.ofNat (n / 256 ^ (k - 1 - i)) : Byte))
      = n % 256 ^ k := by
  induction k generalizing n with
  | zero => simp [readInteger, Nat.mod_one]
  | succ k ih =>
    rw [List.range_succ, List.map_append, List.map_singleton, readInteger_append]
    have hmap : (List.range k).map (fun i => (Fin.ofNat (n / 256 ^ (k + 1 - 1 - i)) : Byte))
        = (List.range k).map (fun i => (Fin.ofNat (n / 256 / 256 ^ (k - 1 - i)) : Byte)) := by
      apply List.map_congr_left
      intro i hi
      have hik : i < k := List.mem_range.mp hi
      have e : k + 1 - 1 - i = (k - 1 - i) + 1 := by omega
      rw [e, pow_succ, Nat.div_div_eq_div_mul, Nat.mul_comm]
    rw [hmap, ih]
    have e0 : k + 1 - 1 - k = 0 := by omega
    simp only [e0, pow_zero, Nat.div_one, Fin.ofNat, Fin.val_mk]
    rw [pow_succ, Nat.mul_comm (256 ^ k) 256, Nat.mod_mul]
    omega

theorem readInteger_U256Bytes (n : Nat) : readInteger (U256Bytes n) = n % 2 ^ 256 := by
  have h := readInteger_digits 32 (n % 2 ^ 256)
  have e : (256 : Nat) ^ 32 = 2 ^ 256 := by norm_num
  rw [e, Nat.mod_mod] at h
  exact h

theorem U256Bytes_length (n : Nat) : (U256Bytes n).length = 32 := by
  simp [U256Bytes, paddedBigBytes32]

/-! ## balanceOf -/

theorem Run_balanceOf_atomic (ctx : Ctx) (caller token owner : Address) (rest : List Byte)
    (ro : Bool)
    (h : Unpack [.address, .address] rest = .ok [.address token, .address owner]) :
    Run atomicStateDB ctx ⟨caller, BalanceOfMethod.ID ++ rest⟩ ro
      = some ⟨U256Bytes (ctx.bank.balances owner (EVMDenom token)), none,
          ⟨ctx.bank, ctx.calls ++ [.ExecuteNativeAction, .GetBalance owner (EVMDenom token)]⟩⟩ := by
  rw [Run_balanceOf]
  simp [BalanceOfMethod, h, atomicStateDB, balanceOfAction, GetBalance, Ctx.log, Pack, packElement]

/-- C7: balanceOf is a pure read of `(token, owner)`. For a payload whose
arguments decode: on every state database the result is the same for
`readonly = true` and `readonly = false`; on the atomic bridge, for either
value of `readonly` and every caller, `Run` returns no error and 32 bytes
that are the big-endian form of the owner's balance of `EVMDenom token` (a
balance below 2^256 is read back from them), the ledger that comes back is
the one given, the only collaborator calls are `ExecuteNativeAction` and
`GetBalance` (no `BlockedAddr`), and a second call, by any caller and with
any `readonly`, on the context the first one left returns the same bytes. -/
theorem Run_balanceOf_pure_read (db : ExtStateDB) (ctx : Ctx) (caller caller2 token owner : Address)
    (rest : List Byte) (ro ro2 : Bool)
    (h : Unpack [.address, .address] rest = .ok [.address token, .address owner]) :
    Run db ctx ⟨caller, BalanceOfMethod.ID ++ rest⟩ true
        = Run db ctx ⟨caller, BalanceOfMethod.ID ++ rest⟩ false ∧
    ∃ r, Run atomicStateDB ctx ⟨caller, BalanceOfMethod.ID ++ rest⟩ ro = some r ∧
      r.err = none ∧
      r.ret = U256Bytes (ctx.bank.balances owner (EVMDenom token)) ∧
      r.ret.length = 32 ∧
      (ctx.bank.balances owner (EVMDenom token) < 2 ^ 256 →
        readInteger r.ret = ctx.bank.balances owner (EVMDenom token)) ∧
      r.ctx.bank = ctx.bank ∧
      r.ctx.calls = ctx.calls ++ [.ExecuteNativeAction, .GetBalance owner (EVMDenom token)] ∧
      ∃ r2, Run atomicStateDB r.ctx ⟨caller2, BalanceOfMethod.ID ++ rest⟩ ro2 = some r2 ∧
        r2.err = none ∧ r2.ret = r.ret ∧ r2.ctx.bank = ctx.bank := by
  refine ⟨by rw [Run_balanceOf, Run_balanceOf], _, Run_balanceOf_atomic ctx caller token owner rest ro h,
    rfl, rfl, U256Bytes_length _, ?_, rfl, rfl, _, Run_balanceOf_atomic _ caller2 token owner rest ro2 h,
    rfl, rfl, rfl⟩
  intro hlt
  simp only [readInteger_U256Bytes]
  exact Nat.mod_eq_of_lt hlt

/-! ## Burn -/

/-- C10: burn with `readonly = false`, arguments that decode to an account and
an amount above 0. (i) When the account is blocked, `Run` returns the
unauthorized error naming it, on every state database, after the `BlockedAddr`
query alone. (ii) On the atomic bridge, when the account is not blocked and
transfers of `EVMDenom caller` are not enabled, `Run` returns the error of
`IsSendEnabledCoins`; the calls made are `BlockedAddr`, `ExecuteNativeAction`,
`IsSendEnabledCoins` and no other. In both cases the ledger is the one given.
(iii) When both checks pass, `SendCoinsFromAccountToModule` is called next;
when it fails (the account holds less than the amount) `BurnCoins` is not
called and the ledger is the one given, and when it succeeds `BurnCoins` is
called after it and `Run` returns no error. -/
theorem Run_burn_gates (db : ExtStateDB) (ctx : Ctx) (caller account : Address) (amount : Nat)
    (rest : List Byte)
    (h : Unpack [.address, .uint256] rest = .ok [.address account, .uint amount])
    (hamt : 0 < amount) :
    (ctx.bank.blocked account = true →
      Run db ctx ⟨caller, BurnMethod.ID ++ rest⟩ false
        = some ⟨[], some (.unauthorized account),
            ⟨ctx.bank, ctx.calls ++ [.BlockedAddr account]⟩⟩) ∧
    (ctx.bank.blocked account = false → ctx.bank.sendEnabled (EVMDenom caller) = false →
      Run atomicStateDB ctx ⟨caller, BurnMethod.ID ++ rest⟩ false
        = some ⟨[], some (.sendDisabled (EVMDenom caller)),
            ⟨ctx.bank, ctx.calls ++ [.BlockedAddr account, .ExecuteNativeAction,
              .IsSendEnabledCoins ⟨EVMDenom caller, amount⟩]⟩⟩) ∧
    (ctx.bank.blocked account = false → ctx.bank.sendEnabled (EVMDenom caller) = true →
      ctx.bank.balances account (EVMDenom caller) < amount →
      Run atomicStateDB ctx ⟨caller, BurnMethod.ID ++ rest⟩ false
        = some ⟨[], some (.wrap (.insufficientFunds account (EVMDenom caller))
              "fail to send burn coins to module"),
            ⟨ctx.bank, ctx.calls ++ [.BlockedAddr account, .ExecuteNativeAction,
              .IsSendEnabledCoins ⟨EVMDenom caller, amount⟩,
              .SendCoinsFromAccountToModule account ⟨EVMDenom caller, amount⟩]⟩⟩) ∧
    (ctx.bank.blocked account = false → ctx.bank.sendEnabled (EVMDenom caller) = true →
      amount ≤ ctx.bank.balances account (EVMDenom caller) →
      ∃ r, Run atomicStateDB ctx ⟨caller, BurnMethod.ID ++ rest⟩ false = some r ∧
        r.ret = [] ∧ r.err = none ∧
        r.ctx.calls = ctx.calls ++ [.BlockedAddr account, .ExecuteNativeAction,
              .IsSendEnabledCoins ⟨EVMDenom caller, amount⟩,
              .SendCoinsFromAccountToModule account ⟨EVMDenom caller, amount⟩,
              .BurnCoins ⟨EVMDenom caller, amount⟩]) := by
  have hs : ¬ sign amount ≤ 0 := by simp [sign]; omega
  refine ⟨?_, ?_, ?_, ?_⟩
  · intro hblk
    rw [Run_burn]
    simp [BurnMethod, h, hs, checkBlockedAddr, AccAddressFromBech32String, BlockedAddr, hblk,
      Ctx.log]
  · intro hblk hen
    rw [Run_burn]
    simp [BurnMethod, h, hs, checkBlockedAddr, AccAddressFromBech32String, BlockedAddr, hblk,
      Ctx.log, atomicStateDB, mintBurnAction, IsSendEnabledCoins, NewCoin, hen]
  · intro hblk hen hlt
    rw [Run_burn]
    simp [BurnMethod, h, hs, checkBlockedAddr, AccAddressFromBech32String, BlockedAddr, hblk,
      Ctx.log, atomicStateDB, mintBurnAction, IsSendEnabledCoins, NewCoin, hen,
      SendCoinsFromAccountToModule, Bank.send, Ctx.update, hlt]
  · intro hblk hen hle
    have hlt : ¬ ctx.bank.balances account (EVMDenom caller) < amount := by omega
    rw [Run_burn]
    simp [BurnMethod, h, hs, checkBlockedAddr, AccAddressFromBech32String, BlockedAddr, hblk,
      Ctx.log, atomicStateDB, mintBurnAction, IsSendEnabledCoins, NewCoin, hen,
      SendCoinsFromAccountToModule, Bank.send, Ctx.update, hlt, BurnCoins, Bank.add, Bank.sub]

/-! ## The text of a denom -/

set_option maxRecDepth 100000 in
theorem unhex_hexEncode_byte : ∀ v : Byte,
    16 * unhex (hextable.getD (v.val >>> 4) '0') + unhex (hextable.getD (v.val &&& 0x0f) '0')
      = v.val := by
  decide!

theorem hexEncode_injective : ∀ l1 l2 : List Byte, hexEncode l1 = hexEncode l2 → l1 = l2 := by
  intro l1
  induction l1 with
  | nil =>
    intro l2 h
    cases l2 with
    | nil => rfl
    | cons w t => simp [hexEncode] at h
  | cons v t ih =>
    intro l2 h
    cases l2 with
    | nil => simp [hexEncode] at h
    | cons w t2 =>
      simp only [hexEncode, List.flatMap_cons, List.cons_append, List.nil_append,
        List.cons.injEq] at h
      obtain ⟨h1, h2, h3⟩ := h
      have hv := unhex_hexEncode_byte v
      have hw := unhex_hexEncode_byte w
      rw [h1, h2] at hv
      have hvw : v = w := Fin.ext (hv.symm.trans hw)
      rw [hvw, ih t2 h3]

set_option maxRecDepth 100000 in
theorem hexEncode_byte_mem : ∀ v : Byte,
    hextable.getD (v.val >>> 4) '0' ∈ hextable ∧ hextable.getD (v.val &&& 0x0f) '0' ∈ hextable := by
  decide!

theorem mem_hextable_of_mem_hexEncode (l : List Byte) (c : Char) (h : c ∈ hexEncode l) :
    c ∈ hextable := by
  simp only [hexEncode, List.mem_flatMap, List.mem_cons, List.mem_singleton] at h
  obtain ⟨v, _, hc⟩ := h
  rcases hc with hc | hc | hc
  · rw [hc]; exact (hexEncode_byte_mem v).1
  · rw [hc]; exact (hexEncode_byte_mem v).2
  · simp at hc

theorem toLower_checksum_digit : ∀ c ∈ 'x' :: hextable,
    c.toLower = c ∧ (Char.ofNat (c.toNat - 32)).toLower = c ∨
    c.toLower = c ∧ ¬ c > '9' := by
  decide

theorem toLower_checksumAt (hash : List Nat) (i : Nat) (c : Char) (h : c ∈ 'x' :: hextable) :
    (checksumAt hash i c).toLower = c := by
  simp only [checksumAt]
  rcases toLower_checksum_digit c h with ⟨h1, h2⟩ | ⟨h1, h2⟩
  · split_ifs <;> first | exact h1 | exact h2
  · split_ifs with k1 k2 k3 k4 <;> first | exact h1 | exact absurd k3.1 h2 | exact absurd k4.1 h2

theorem toLower_checksumHex (a : Address) : a.checksumHex.map Char.toLower = a.hex := by
  unfold Address.checksumHex
  simp only [List.map_map]
  conv_rhs => rw [← List.enum_map_snd a.hex]
  apply List.map_congr_left
  intro p hp
  have hmem : p.2 ∈ a.hex := List.snd_mem_of_mem_enum hp
  simp only [Function.comp_apply]
  apply toLower_checksumAt
  simp only [Address.hex, List.cons_append, List.nil_append, List.mem_cons] at hmem
  rcases hmem with h0 | hx | hh
  · rw [h0]; decide
  · rw [hx]; decide
  · exact List.mem_cons_of_mem _ (mem_hextable_of_mem_hexEncode _ _ hh)

theorem Address_hex_injective (a b : Address) (h : a.hex = b.hex) : a = b := by
  simp only [Address.hex, List.cons_append, List.nil_append, List.cons.injEq, true_and] at h
  have hb := hexEncode_injective _ _ h
  cases a; cases b
  simp only [Address.mk.injEq]
  exact hb

theorem Address_Hex_injective (a b : Address) (h : a.Hex = b.Hex) : a = b := by
  apply Address_hex_injective
  rw [← toLower_checksumHex a, ← toLower_checksumHex b]
  have hd : a.checksumHex = b.checksumHex := congrArg String.data h
  rw [hd]

/-- C8: `EVMDenom` is a function of the address, and two addresses have the same
denom exactly when they are the same address. -/
theorem EVMDenom_injective (a b : Address) : EVMDenom a = EVMDenom b ↔ a = b := by
  constructor
  · intro h
    apply Address_Hex_injective
    have hd := congrArg String.data h
    simp only [EVMDenom, String.data_append, List.append_cancel_left_eq] at hd
    exact String.ext hd
  · intro h
    rw [h]

theorem hexEncode_length (l : List Byte) : (hexEncode l).length = 2 * l.length := by
  induction l with
  | nil => rfl
  | cons v t ih =>
    simp only [hexEncode, List.flatMap_cons, List.cons_append, List.nil_append, List.length_cons]
      at ih ⊢
    omega

set_option maxRecDepth 100000 in
theorem EVMDenom_eip55Sample :
    EVMDenom eip55Sample = "evm/0x5aAeb6053F3E94C9b9A09f33669435E7Ef1BeAed" := by
  decide!

/-- C9, as amended: `EVMDenom a` is "evm/" followed by the text of
`Address.Hex`, 46 characters in all; read in lower case it is "evm/0x"
followed by the lowercase hexadecimal digits of the 20 bytes. -/
theorem EVMDenom_lowercase_form (a : Address) :
    EVMDenom a = EVMDenomPrefix ++ a.Hex ∧
    (EVMDenom a).length = 46 ∧
    toLower (EVMDenom a) = "evm/0x" ++ String.mk (hexEncode a.bytes) := by
  refine ⟨rfl, ?_, ?_⟩
  · show (EVMDenom a).data.length = 46
    simp only [EVMDenom, EVMDenomPrefix, String.data_append, Address.Hex, List.length_append,
      Address.checksumHex, List.length_map, List.enum_length, Address.hex, hexEncode_length, a.len]
    rfl
  · apply String.ext
    show (EVMDenom a).data.map Char.toLower = _
    simp only [EVMDenom, EVMDenomPrefix, String.data_append, Address.Hex, List.map_append,
      toLower_checksumHex, Address.hex]
    rfl

/-- C9, the claim as written fails: the denom of the address
0x5aAeb6053F3E94C9b9A09f33669435E7Ef1BeAed is not "evm/" followed by the
lowercase digits of its bytes; it has an upper-case A among its characters,
and its lowercase form is a different string. -/
theorem EVMDenom_not_lowercase :
    EVMDenom eip55Sample ≠ EVMDenomPrefix ++ String.mk (hexEncode eip55Sample.bytes) ∧
    'A' ∈ (EVMDenom eip55Sample).toList ∧
    toLower (EVMDenom eip55Sample) ≠ EVMDenom eip55Sample := by
  rw [EVMDenom_eip55Sample]
  decide

/-! ## Failure of the native action -/

/-- On every state database, a mint, burn or transfer call that passes the
local checks returns the error that `ExecuteNativeAction` returns, and the
context it leaves. -/
theorem Run_mutating_returns_action_error (db : ExtStateDB) (ctx ctx1 : Ctx)
    (caller account sender : Address) (amount : Nat) (rest2 rest3 : List Byte) (e : Err)
    (hamt : 0 < amount) (hblk : ctx.bank.blocked account = false)
    (h2 : Unpack [.address, .uint256] rest2 = .ok [.address account, .uint amount])
    (h3 : Unpack [.address, .address, .uint256] rest3
        = .ok [.address sender, .address account, .uint amount]) :
    (db.ExecuteNativeAction Unit (mintBurnAction true account ⟨EVMDenom caller, amount⟩)
        ⟨ctx.bank, ctx.calls ++ [.BlockedAddr account, .ExecuteNativeAction]⟩ () = (some e, ctx1, ()) →
      Run db ctx ⟨caller, MintMethod.ID ++ rest2⟩ false = some ⟨[], some e, ctx1⟩) ∧
    (db.ExecuteNativeAction Unit (mintBurnAction false account ⟨EVMDenom caller, amount⟩)
        ⟨ctx.bank, ctx.calls ++ [.BlockedAddr account, .ExecuteNativeAction]⟩ () = (some e, ctx1, ()) →
      Run db ctx ⟨caller, BurnMethod.ID ++ rest2⟩ false = some ⟨[], some e, ctx1⟩) ∧
    (db.ExecuteNativeAction Unit (transferAction sender account ⟨EVMDenom caller, amount⟩)
        ⟨ctx.bank, ctx.calls ++ [.BlockedAddr account, .ExecuteNativeAction]⟩ () = (some e, ctx1, ()) →
      Run db ctx ⟨caller, TransferMethod.ID ++ rest3⟩ false = some ⟨[], some e, ctx1⟩) := by
  have hs : ¬ sign amount ≤ 0 := by simp [sign]; omega
  refine ⟨?_, ?_, ?_⟩
  · intro hx
    rw [Run_mint]
    simp [MintMethod, h2, hs, checkBlockedAddr, AccAddressFromBech32String, BlockedAddr, hblk,
      Ctx.log, NewCoin, hx]
  · intro hx
    rw [Run_burn]
    simp [BurnMethod, h2, hs, checkBlockedAddr, AccAddressFromBech32String, BlockedAddr, hblk,
      Ctx.log, NewCoin, hx]
  · intro hx
    rw [Run_transfer]
    simp [TransferMethod, h3, hs, checkBlockedAddr, AccAddressFromBech32String, BlockedAddr, hblk,
      Ctx.log, NewCoin, hx]

/-- On every state database, a balanceOf call whose arguments decode returns
no error, whatever `ExecuteNativeAction` returned. -/
theorem Run_balanceOf_never_fails (db : ExtStateDB) (ctx : Ctx) (caller token owner : Address)
    (rest : List Byte) (ro : Bool)
    (h : Unpack [.address, .address] rest = .ok [.address token, .address owner]) :
    ∃ r, Run db ctx ⟨caller, BalanceOfMethod.ID ++ rest⟩ ro = some r ∧ r.err = none ∧
      r.ret.length = 32 := by
  rw [Run_balanceOf]
  simp [BalanceOfMethod, h, Pack, packElement, U256Bytes_length]

/-- C4, the code at the failing input: the state database fails the native
action of a balanceOf call, and `Run` returns no error and the 32 bytes of
the balance 0. -/
theorem Run_balanceOf_drops_action_error :
    Run (failingStateDB (.new "native action failed")) sampleCtx
        ⟨sampleAddr 3, BalanceOfMethod.ID ++ Pack [.address (sampleAddr 9), .address (sampleAddr 1)]⟩
        false
      = some ⟨U256Bytes 0, none, ⟨sampleBank, [.ExecuteNativeAction]⟩⟩ := by
  rw [Run_balanceOf]
  rfl

/-! ## Encoded arguments decode -/

theorem BytesToAddress_packAddress (a : Address) : BytesToAddress (packAddress a) = a := by
  have hl := a.len
  cases a with
  | mk bytes len =>
    simp only [BytesToAddress, Address.mk.injEq, setBytes, packAddress]
    simp only at hl
    simp [hl, List.drop_append_eq_append_drop]

theorem packAddress_length (a : Address) : (packAddress a).length = 32 := by
  simp [packAddress, a.len]

theorem take_word (w tail : List Byte) (h : w.length = 32) : (w ++ tail).take 32 = w := by
  rw [List.take_append_of_le_length (by omega)]
  exact List.take_of_length_le (by omega)

theorem drop_word (w tail : List Byte) (h : w.length = 32) : (w ++ tail).drop 32 = tail := by
  rw [List.drop_append_of_le_length (by omega), List.drop_of_length_le (by omega)]
  rfl

theorem Unpack_Pack_address_uint (a : Address) (n : Nat) (hn : n < 2 ^ 256) :
    Unpack [.address, .uint256] (Pack [.address a, .uint n]) = .ok [.address a, .uint n] := by
  have h1 := packAddress_length a
  have h2 := U256Bytes_length n
  have e1 : (packAddress a ++ U256Bytes n).take 32 = packAddress a := take_word _ _ h1
  have e2 : (packAddress a ++ U256Bytes n).drop 32 = U256Bytes n := drop_word _ _ h1
  have e3 : (U256Bytes n).take 32 = U256Bytes n := List.take_of_length_le (by omega)
  simp [Unpack, UnpackValues, unpackValuesFrom, Pack, packElement, toGoType, h1, h2, e1, e2, e3,
    BytesToAddress_packAddress, readInteger_U256Bytes]
  norm_num at hn
  exact hn

theorem Unpack_Pack_address_address (a b : Address) :
    Unpack [.address, .address] (Pack [.address a, .address b])
      = .ok [.address a, .address b] := by
  have h1 := packAddress_length a
  have h2 := packAddress_length b
  have e1 : (packAddress a ++ packAddress b).take 32 = packAddress a := take_word _ _ h1
  have e2 : (packAddress a ++ packAddress b).drop 32 = packAddress b := drop_word _ _ h1
  have e3 : (packAddress b).take 32 = packAddress b := List.take_of_length_le (by omega)
  simp [Unpack, UnpackValues, unpackValuesFrom, Pack, packElement, toGoType, h1, h2, e1, e2, e3,
    BytesToAddress_packAddress]

theorem Unpack_Pack_address_address_uint (a b : Address) (n : Nat) (hn : n < 2 ^ 256) :
    Unpack [.address, .address, .uint256] (Pack [.address a, .address b, .uint n])
      = .ok [.address a, .address b, .uint n] := by
  have h1 := packAddress_length a
  have h2 := packAddress_length b
  have h3 := U256Bytes_length n
  have e1 : (packAddress a ++ (packAddress b ++ U256Bytes n)).take 32 = packAddress a :=
    take_word _ _ h1
  have e2 : (packAddress a ++ (packAddress b ++ U256Bytes n)).drop 32
      = packAddress b ++ U256Bytes n := drop_word _ _ h1
  have e2b : (packAddress a ++ (packAddress b ++ U256Bytes n)).drop 64 = U256Bytes n := by
    have : (64 : Nat) = 32 + 32 := rfl
    rw [this, ← List.drop_drop, e2, drop_word _ _ h2]
  have e3 : (packAddress b ++ U256Bytes n).take 32 = packAddress b := take_word _ _ h2
  have e4 : (U256Bytes n).take 32 = U256Bytes n := List.take_of_length_le (by omega)
  simp [Unpack, UnpackValues, unpackValuesFrom, Pack, packElement, toGoType, h1, h2, h3, e1, e2,
    e2b, e3, e4, BytesToAddress_packAddress, readInteger_U256Bytes]
  norm_num at hn
  exact hn

/-! ## The theorems at sample calls -/

/-- C2 at a sample call: amount 0 to the blocked account 7. -/
theorem Run_zero_amount_witness :
    Unpack [.address, .uint256] (Pack [.address (sampleAddr 7), .uint 0])
        = .ok [.address (sampleAddr 7), .uint 0] ∧
    Unpack [.address, .address, .uint256]
        (Pack [.address (sampleAddr 1), .address (sampleAddr 7), .uint 0])
        = .ok [.address (sampleAddr 1), .address (sampleAddr 7), .uint 0] ∧
    Run atomicStateDB sampleCtx
        ⟨sampleAddr 9, TransferMethod.ID
          ++ Pack [.address (sampleAddr 1), .address (sampleAddr 7), .uint 0]⟩ false
        = some ⟨[], some (.new "invalid amount"), sampleCtx⟩ :=
  ⟨rfl, rfl,
    (Run_zero_amount atomicStateDB sampleCtx (sampleAddr 9)
      (Pack [.address (sampleAddr 7), .uint 0])
      (Pack [.address (sampleAddr 1), .address (sampleAddr 7), .uint 0])
      (sampleAddr 7) (sampleAddr 1) (sampleAddr 7) rfl rfl).2.2⟩

/-- C3 at a sample call: 5 coins to the blocked account 7. -/
theorem Run_blocked_recipient_witness :
    0 < 5 ∧ sampleCtx.bank.blocked (sampleAddr 7) = true ∧
    Run atomicStateDB sampleCtx
        ⟨sampleAddr 9, MintMethod.ID ++ Pack [.address (sampleAddr 7), .uint 5]⟩ false
        = some ⟨[], some (.unauthorized (sampleAddr 7)),
            ⟨sampleCtx.bank, sampleCtx.calls ++ [.BlockedAddr (sampleAddr 7)]⟩⟩ :=
  ⟨by decide, rfl,
    (Run_blocked_recipient atomicStateDB sampleCtx (sampleAddr 9)
      (Pack [.address (sampleAddr 7), .uint 5])
      (Pack [.address (sampleAddr 1), .address (sampleAddr 7), .uint 5])
      (sampleAddr 1) (sampleAddr 7) 5 (by decide) rfl rfl rfl).1⟩

/-- C5 at the call of the spec: the contract 9 mints 100 to account 2. -/
theorem Run_mint_net_effect_witness :
    0 < 100 ∧ sampleCtx.bank.blocked (sampleAddr 2) = false ∧
    sampleCtx.bank.sendEnabled (EVMDenom (sampleAddr 9)) = true ∧
    ∃ r, Run atomicStateDB sampleCtx
        ⟨sampleAddr 9, MintMethod.ID ++ Pack [.address (sampleAddr 2), .uint 100]⟩ false = some r ∧
      r.ret = [] ∧ r.err = none ∧
      r.ctx.bank.balances (sampleAddr 2) (EVMDenom (sampleAddr 9))
        = sampleCtx.bank.balances (sampleAddr 2) (EVMDenom (sampleAddr 9)) + 100 ∧
      ∀ acct denom, ¬ (acct = sampleAddr 2 ∧ denom = EVMDenom (sampleAddr 9)) →
        r.ctx.bank.balances acct denom = sampleCtx.bank.balances acct denom :=
  ⟨by decide, rfl, rfl,
    Run_mint_net_effect sampleCtx (sampleAddr 9) (sampleAddr 2) 100
      (Pack [.address (sampleAddr 2), .uint 100]) rfl (by decide) rfl rfl⟩

/-- C6 at the call of the spec: account 1 holds 100 and sends 40 to account 2. -/
theorem Run_transfer_conservation_witness :
    sampleAddr 1 ≠ sampleAddr 2 ∧
    40 ≤ sampleCtx.bank.balances (sampleAddr 1) (EVMDenom (sampleAddr 9)) ∧
    ∃ r, Run atomicStateDB sampleCtx
        ⟨sampleAddr 9, TransferMethod.ID
          ++ Pack [.address (sampleAddr 1), .address (sampleAddr 2), .uint 40]⟩ false = some r ∧
      r.ret = [] ∧ r.err = none ∧
      r.ctx.bank.balances (sampleAddr 1) (EVMDenom (sampleAddr 9)) = 60 ∧
      r.ctx.bank.balances (sampleAddr 2) (EVMDenom (sampleAddr 9)) = 40 := by
  have hne : sampleAddr 1 ≠ sampleAddr 2 := by decide
  have hne2 : sampleAddr 2 ≠ sampleAddr 1 := by decide
  have h100 : sampleCtx.bank.balances (sampleAddr 1) (EVMDenom (sampleAddr 9)) = 100 := by
    simp [sampleCtx, sampleBank]
  have h0 : sampleCtx.bank.balances (sampleAddr 2) (EVMDenom (sampleAddr 9)) = 0 := by
    simp [sampleCtx, sampleBank, hne2]
  have hle : 40 ≤ sampleCtx.bank.balances (sampleAddr 1) (EVMDenom (sampleAddr 9)) := by
    rw [h100]; decide
  obtain ⟨r, hr, hret, herr, hs, hd, _, _⟩ :=
    Run_transfer_conservation sampleCtx (sampleAddr 9) (sampleAddr 1) (sampleAddr 2) 40
      (Pack [.address (sampleAddr 1), .address (sampleAddr 2), .uint 40]) rfl hne (by decide)
      hle rfl rfl
  refine ⟨hne, hle, r, hr, hret, herr, ?_, ?_⟩
  · rw [h100] at hs; omega
  · rw [h0] at hd; omega

/-- C7 at a sample call: the balance of account 1 in the denom of contract 9. -/
theorem Run_balanceOf_pure_read_witness :
    Unpack [.address, .address] (Pack [.address (sampleAddr 9), .address (sampleAddr 1)])
        = .ok [.address (sampleAddr 9), .address (sampleAddr 1)] ∧
    ∃ r, Run atomicStateDB sampleCtx
        ⟨sampleAddr 3, BalanceOfMethod.ID
          ++ Pack [.address (sampleAddr 9), .address (sampleAddr 1)]⟩ true = some r ∧
      r.err = none ∧ readInteger r.ret = 100 ∧ r.ctx.bank = sampleCtx.bank := by
  have h100 : sampleCtx.bank.balances (sampleAddr 1) (EVMDenom (sampleAddr 9)) = 100 := by
    simp [sampleCtx, sampleBank]
  obtain ⟨_, r, hr, herr, _, _, hread, hbank, _, _⟩ :=
    Run_balanceOf_pure_read atomicStateDB sampleCtx (sampleAddr 3) (sampleAddr 4) (sampleAddr 9)
      (sampleAddr 1) (Pack [.address (sampleAddr 9), .address (sampleAddr 1)]) true false rfl
  refine ⟨rfl, r, hr, herr, ?_, hbank⟩
  rw [h100] at hread
  exact hread (by norm_num)

/-- C10 at sample calls: a burn of 40 from account 1 while transfers are
disabled, and the same burn while they are enabled. -/
theorem Run_burn_gates_witness :
    0 < 40 ∧
    Run atomicStateDB ⟨frozenBank, []⟩
        ⟨sampleAddr 9, BurnMethod.ID ++ Pack [.address (sampleAddr 1), .uint 40]⟩ false
      = some ⟨[], some (.sendDisabled (EVMDenom (sampleAddr 9))),
          ⟨frozenBank, [] ++ [.BlockedAddr (sampleAddr 1), .ExecuteNativeAction,
            .IsSendEnabledCoins ⟨EVMDenom (sampleAddr 9), 40⟩]⟩⟩ ∧
    ∃ r, Run atomicStateDB sampleCtx
        ⟨sampleAddr 9, BurnMethod.ID ++ Pack [.address (sampleAddr 1), .uint 40]⟩ false = some r ∧
      r.ret = [] ∧ r.err = none ∧
      r.ctx.calls = sampleCtx.calls ++ [.BlockedAddr (sampleAddr 1), .ExecuteNativeAction,
            .IsSendEnabledCoins ⟨EVMDenom (sampleAddr 9), 40⟩,
            .SendCoinsFromAccountToModule (sampleAddr 1) ⟨EVMDenom (sampleAddr 9), 40⟩,
            .BurnCoins ⟨EVMDenom (sampleAddr 9), 40⟩] := by
  have h100 : sampleCtx.bank.balances (sampleAddr 1) (EVMDenom (sampleAddr 9)) = 100 := by
    simp [sampleCtx, sampleBank]
  refine ⟨by decide, ?_, ?_⟩
  · exact (Run_burn_gates atomicStateDB ⟨frozenBank, []⟩ (sampleAddr 9) (sampleAddr 1) 40
      (Pack [.address (sampleAddr 1), .uint 40]) rfl (by decide)).2.1 rfl rfl
  · exact (Run_burn_gates atomicStateDB sampleCtx (sampleAddr 9) (sampleAddr 1) 40
      (Pack [.address (sampleAddr 1), .uint 40]) rfl (by decide)).2.2.2 rfl rfl
      (by rw [h100]; decide)

end Precompiles
